import Mathlib

/-
Verification of the survey repository's persistence layer (src/api/database.js).

The model covers the SQLite engine (the default: IS_MYSQL is false unless
USE_MYSQL='true'); buildWhereClause is modelled for both engines through its
isMysql flag, as in the source.  JavaScript strings are modelled as Lean
String, JSON/JS values as the inductive JVal below, a table row as Row
(id, receivedAt, data columns), and a database state as DB.  SQL queries are
modelled by their denotation on the row lists: LIKE '%s%' as (ASCII
case-insensitive) substring containment, IN-lists as membership, ORDER BY
receivedAt DESC as insertion sort by the descending order on the column,
DELETE/UPDATE ... WHERE id = ? as pointwise list operations.  SQL LIKE
wildcard characters occurring inside a search string itself are treated as
literal text (a simplification; no claim depends on it).
-/

namespace Survey

/-- A JavaScript/JSON value as stored in a survey payload: JSON.parse and
JSON.stringify move between the `data` TEXT column and such values. -/
inductive JVal where
  | null : JVal
  | bool (b : Bool) : JVal
  | num (n : Int) : JVal
  | str (s : String) : JVal
  | arr (elems : List JVal) : JVal
  | obj (fields : List (String × JVal)) : JVal
deriving Repr

/-- A survey payload: the fields of one JS object, in property order. -/
abbrev Payload := List (String × JVal)

/-- Property read `l[k]` on a JS object modelled as an association list:
the first entry with key `k` (a real JS object has unique keys). -/
def lookupA {α : Type} (l : List (String × α)) (k : String) : Option α :=
  (l.find? (fun kv => kv.1 = k)).map (fun kv => kv.2)

/-- Property write `l[k] = v` on a JS object: replaces the value at the first
entry with key `k` in place, appends the pair when the key is absent. -/
def setAssoc {α : Type} (l : List (String × α)) (k : String) (v : α) : List (String × α) :=
  match l with
  | [] => [(k, v)]
  | kv :: rest => if kv.1 = k then (k, v) :: rest else kv :: setAssoc rest k v

/-- JS truthiness of a value, as used by `x || y` and `if (x)`. -/
def JVal.truthy : JVal → Bool
  | .null => false
  | .bool b => b
  | .num n => n != 0
  | .str s => s != ""
  | .arr _ => true
  | .obj _ => true

mutual

/-- JS `String(v)` string conversion. -/
def JVal.display : JVal → String
  | .null => "null"
  | .bool b => if b then "true" else "false"
  | .num n => toString n
  | .str s => s
  | .arr l => JVal.displayElems l
  | .obj _ => "[object Object]"

/-- JS `Array.prototype.join(",")` used by String(array): null elements
render as the empty string. -/
def JVal.displayElems : List JVal → String
  | [] => ""
  | [.null] => ""
  | [v] => JVal.display v
  | .null :: rest => "," ++ JVal.displayElems rest
  | v :: rest => JVal.display v ++ "," ++ JVal.displayElems rest

end

/-- One character of JSON.stringify output for a string body: quotes,
backslashes and the common control characters are escaped (other control
characters are left as they are; survey payloads are plain text). -/
def jsonEscapeChar (c : Char) : List Char :=
  if c = '"' then ['\\', '"']
  else if c = '\\' then ['\\', '\\']
  else if c = '\n' then ['\\', 'n']
  else if c = '\t' then ['\\', 't']
  else if c = '\r' then ['\\', 'r']
  else [c]

/-- JSON.stringify of a string body (without the surrounding quotes). -/
def jsonEscape (s : String) : String :=
  String.mk (s.data.flatMap jsonEscapeChar)

mutual

/-- JSON.stringify of a value, as written to the `data` TEXT column. -/
def JVal.stringify : JVal → String
  | .null => "null"
  | .bool b => if b then "true" else "false"
  | .num n => toString n
  | .str s => "\"" ++ jsonEscape s ++ "\""
  | .arr l => "[" ++ JVal.stringifyList l ++ "]"
  | .obj f => "\x7b" ++ JVal.stringifyFields f ++ "\x7d"

/-- Comma-separated stringified elements of a JSON array. -/
def JVal.stringifyList : List JVal → String
  | [] => ""
  | [v] => JVal.stringify v
  | v :: rest => JVal.stringify v ++ "," ++ JVal.stringifyList rest

/-- Comma-separated stringified entries of a JSON object. -/
def JVal.stringifyFields : List (String × JVal) → String
  | [] => ""
  | [(k, v)] => "\"" ++ jsonEscape k ++ "\":" ++ JVal.stringify v
  | (k, v) :: rest => "\"" ++ jsonEscape k ++ "\":" ++ JVal.stringify v ++ "," ++ JVal.stringifyFields rest

end

/-- JSON.stringify of a whole payload object. -/
def stringifyPayload (data : Payload) : String :=
  JVal.stringify (.obj data)

/-- Contiguous-sublist test on character lists: `pat` occurs inside
`haystack`. -/
def hasInfix (haystack pat : List Char) : Bool :=
  pat.isPrefixOf haystack ||
    match haystack with
    | [] => false
    | _ :: rest => hasInfix rest pat

/-- Substring test `haystack.includes(pat)` on JS strings. -/
def strIncludes (haystack pat : String) : Bool :=
  hasInfix haystack.data pat.data

/-- Leading and trailing whitespace removal, as JS `String.prototype.trim`. -/
def trimChars (l : List Char) : List Char :=
  ((l.dropWhile Char.isWhitespace).reverse.dropWhile Char.isWhitespace).reverse

/-- Character-level part of `normalizeAr` in cleanBranchNames: the look-alike
Arabic letter variants are each mapped to one base form. -/
def normChar (c : Char) : Char :=
  if c = 'أ' ∨ c = 'إ' ∨ c = 'آ' then 'ا'
  else if c = 'ة' then 'ه'
  else if c = 'ى' then 'ي'
  else c

/-- The `normalizeAr` helper of cleanBranchNames: empty (falsy) input gives
the empty string, otherwise letter variants are unified, dots removed and
the result trimmed. -/
def normalizeAr (text : String) : String :=
  if text = "" then ""
  else String.mk (trimChars ((text.data.map normChar).filter (fun c => c ≠ '.')))

/-- The `idlibKeywords` list of cleanBranchNames (already mapped through
normalizeAr, as in the source). -/
def idlibKeywords : List String :=
  ([ "ادلب", "سرمدا", "اريحا", "القصور", "المدنيه", "الغابات", "الفاروق", "الفرع", "الدانه",
     "جسر الشغور", "حارم", "دلب", "سراقب", "باب الهوي", "صرمدا", "معره النعمان", "كنصفره",
     "جبل الزاويه", "اداب", "عزمارين", "معره مصرين", "معرتمصرين", "الدانا",
     "الاول", "الثاني", "الثالث", "الرابع", "الخامس", "السادس", "السابع", "الثامن", "التاسع", "العاشر",
     "المدينه", "المدينة", "معرة نعمان", "الحساوي", "الامانه", "الجسر", "القنيه", "بسيدا", "وتار", "حساوي"
   ] : List String).map normalizeAr

/-- The `lattakiaKeywords` list of cleanBranchNames. -/
def lattakiaKeywords : List String :=
  ([ "اللاذقيه", "الاذقيه", "حسدؤه", "حيدره", "الرمل الشمالي", "القraحه", "القرداحه",
     "طيب الرحمن", "الرحمن", "دوار الجامعه", "الزقيه", "دم صرخه", "للاللاذقيه",
     "دمسرخو", "للاذقيه", "الزقيه", "القرداحة", "القرداحه", "حيدره", "الذقية", "دمسرخو", "للاذقية",
     "اللازقيه", "الساحل"
   ] : List String).map normalizeAr

/-- The `aleppoKeywords` list of cleanBranchNames. -/
def aleppoKeywords : List String :=
  ([ "حلب", "اعزاز", "الشعار", "خان السبل", "عفرين", "منبج", "الجنوبي", "الباب", "جرابلس" ] : List String).map normalizeAr

/-- The `tartusKeywords` list of cleanBranchNames. -/
def tartusKeywords : List String :=
  ([ "طرطوس", "الرمال", "بانياس", "صرصوس" ] : List String).map normalizeAr

/-- The `raqqaKeywords` list of cleanBranchNames. -/
def raqqaKeywords : List String :=
  ([ "الرقة", "الرقه", "الطبفه", "الطبقه" ] : List String).map normalizeAr

/-- The `homsKeywords` list of cleanBranchNames. -/
def homsKeywords : List String :=
  ([ "حمص", "تدمر", "الرصيف", "اللؤلؤه", "السلام", "رامي عبد الكريم" ] : List String).map normalizeAr

/-- The `hamaKeywords` list of cleanBranchNames. -/
def hamaKeywords : List String :=
  ([ "حماه", "حماة", "مصياف", "الوزير", "الانشاءات", "النشائات", "رنجوس" ] : List String).map normalizeAr

/-- The `daraaKeywords` list of cleanBranchNames. -/
def daraaKeywords : List String :=
  ([ "درعا" ] : List String).map normalizeAr

/-- The `deirEzorKeywords` list of cleanBranchNames. -/
def deirEzorKeywords : List String :=
  ([ "دير الزور", "ديرالزور" ] : List String).map normalizeAr

/-- The `damascusKeywords` list of cleanBranchNames. -/
def damascusKeywords : List String :=
  ([ "دمشق", "دمش", "دمشف", "المجتهد", "زين الشام", "الزبداني", "الحسين", "حسين", "التركاوي", "التكروري", "ببيلا", "بوابه الشام", "القدم" ] : List String).map normalizeAr

/-- The `keywords.some(k => branchNormalized.includes(k))` test of
cleanBranchNames. -/
def keywordMatch (keywords : List String) (branchNormalized : String) : Bool :=
  keywords.any (fun k => strIncludes branchNormalized k)

/-- The JS regex test `/\d+/.test(s)`: some Latin digit occurs in `s`. -/
def hasLatinDigit (s : String) : Bool :=
  s.data.any (fun c => decide ('0' ≤ c) && decide (c ≤ '9'))

/-- The Arabic-Indic digit regex test of cleanBranchNames. -/
def hasArabicIndicDigit (s : String) : Bool :=
  s.data.any (fun c => (['١', '٢', '٣', '٤', '٥', '٦', '٧', '٨', '٩', '٠'] : List Char).contains c)

/-- The matching logic of cleanBranchNames: the if/else-if chain over the
city keyword lists, in source order, with the digit fallbacks on the raw
(pre-normalization) value in the Idlib branch; `none` models the JS
`newBranch = null` case. -/
def computeNewBranch (branchValue : String) : Option String :=
  let branchNormalized := normalizeAr branchValue
  if keywordMatch aleppoKeywords branchNormalized then some "حلب"
  else if keywordMatch tartusKeywords branchNormalized then some "طرطوس"
  else if keywordMatch raqqaKeywords branchNormalized then some "الرقة"
  else if keywordMatch hamaKeywords branchNormalized then some "حماه"
  else if keywordMatch daraaKeywords branchNormalized then some "درعا"
  else if keywordMatch deirEzorKeywords branchNormalized then some "دير الزور"
  else if keywordMatch homsKeywords branchNormalized then some "حمص"
  else if keywordMatch lattakiaKeywords branchNormalized then some "اللاذقية"
  else if keywordMatch damascusKeywords branchNormalized then some "دمشق"
  else if keywordMatch idlibKeywords branchNormalized || hasLatinDigit branchValue || hasArabicIndicDigit branchValue then some "إدلب"
  else none

/-- The canonical city names computeNewBranch can produce. -/
def canonicalCities : List String :=
  ["حلب", "طرطوس", "الرقة", "حماه", "درعا", "دير الزور", "حمص", "اللاذقية", "دمشق", "إدلب"]

/-- The fuzzy key test of cleanBranchNames: a key whose normalized form
contains the branch or station substring. -/
def isBranchLikeKey (k : String) : Bool :=
  strIncludes (normalizeAr k) "فرع" || strIncludes (normalizeAr k) "محطه"

/-- The exact branch-field key used by cleanBranchNames. -/
def branchFieldKey : String := "اسم الفرع"

/-- The branch-field location step of cleanBranchNames: the exact key when
present (JS `undefined` test is key absence), else the first key matching
isBranchLikeKey, else the exact key with no value. -/
def findBranchField (data : Payload) : String × Option JVal :=
  match lookupA data branchFieldKey with
  | some v => (branchFieldKey, some v)
  | none =>
    match data.find? (fun kv => isBranchLikeKey kv.1) with
    | some kv => (kv.1, some kv.2)
    | none => (branchFieldKey, none)

/-- Coercion applied by cleanBranchNames before matching:
`branchValue = branchValue || ''` and `String(branchValue)` for non-strings. -/
def coerceBranchValue : Option JVal → String
  | none => ""
  | some v =>
    if v.truthy then
      match v with
      | .str s => s
      | w => w.display
    else ""

/-- One row's pass of cleanBranchNames: (the possibly rewritten payload,
whether an UPDATE was issued for the row). -/
def processRow (data : Payload) : Payload × Bool :=
  let found := findBranchField data
  let branchValue := coerceBranchValue found.2
  match computeNewBranch branchValue with
  | some newBranch =>
    if newBranch ≠ branchValue then (setAssoc data found.1 (.str newBranch), true)
    else (data, false)
  | none => (data, false)

/-- One row of the managers or workers table: id and receivedAt are TEXT
columns, data holds the JSON-parsed payload of the data TEXT column. -/
structure Row where
  id : String
  receivedAt : String
  data : Payload
deriving Repr

/-- The database state: the two record tables and the settings key/value
table (key is a PRIMARY KEY in each table). -/
structure DB where
  managers : List Row
  workers : List Row
  settings : List (String × String)
deriving Repr

/-- ASCII lower-casing, the case folding SQL LIKE applies. -/
def asciiLower (c : Char) : Char :=
  if decide ('A' ≤ c) && decide (c ≤ 'Z') then Char.ofNat (c.toNat + 32) else c

/-- Denotation of the SQL predicate `column LIKE '%pat%'`: ASCII
case-insensitive substring containment. -/
def likeContains (text pat : String) : Bool :=
  hasInfix (text.data.map asciiLower) (pat.data.map asciiLower)

mutual

/-- Structural equality of JSON values, the denotation of SQL equality on
the extracted payload fields (survey answers are strings). -/
def jvalBeq : JVal → JVal → Bool
  | .null, .null => true
  | .bool a, .bool b => a == b
  | .num a, .num b => a == b
  | .str a, .str b => a == b
  | .arr as, .arr bs => jvalBeqList as bs
  | .obj as, .obj bs => jvalBeqFields as bs
  | _, _ => false

/-- Elementwise jvalBeq on JSON arrays. -/
def jvalBeqList : List JVal → List JVal → Bool
  | [], [] => true
  | a :: as, b :: bs => jvalBeq a b && jvalBeqList as bs
  | _, _ => false

/-- Entrywise jvalBeq on JSON objects. -/
def jvalBeqFields : List (String × JVal) → List (String × JVal) → Bool
  | [], [] => true
  | (k1, v1) :: as, (k2, v2) :: bs => k1 == k2 && jvalBeq v1 v2 && jvalBeqFields as bs
  | _, _ => false

end

/-- Denotation of `x IN (v1, ..., vn)` where x is a json_extract result:
SQL NULL (JSON null) compares equal to nothing. -/
def sqlInMatch (x : JVal) (values : List JVal) : Bool :=
  match x with
  | .null => false
  | _ =>
    values.any (fun w =>
      match w with
      | .null => false
      | _ => jvalBeq x w)

/-- Denotation of the WHERE clause buildWhereClause produces, evaluated at
one row: the search clause matches the serialized payload or the receivedAt
column, each non-empty array-valued filter entry must match its IN-list
(receivedAt against the column, any other key against the extracted payload
field, absent field = SQL NULL = no match); other filter entries impose
nothing. -/
def rowMatches (search : String) (filters : List (String × JVal)) (r : Row) : Bool :=
  (search == "" || likeContains (stringifyPayload r.data) search || likeContains r.receivedAt search)
  && filters.all (fun kv =>
      match kv.2 with
      | .arr values =>
        if 0 < values.length then
          if kv.1 = "receivedAt" then sqlInMatch (.str r.receivedAt) values
          else
            match lookupA r.data kv.1 with
            | some x => sqlInMatch x values
            | none => false
        else true
      | _ => true)

/-- Descending order on the receivedAt column: the ORDER BY receivedAt DESC
relation. -/
def rowLeDesc (a b : Row) : Prop := b.receivedAt ≤ a.receivedAt

instance : DecidableRel rowLeDesc := fun a b => inferInstanceAs (Decidable (b.receivedAt ≤ a.receivedAt))

instance : IsTotal Row rowLeDesc := ⟨fun a b => le_total b.receivedAt a.receivedAt⟩

instance : IsTrans Row rowLeDesc := ⟨fun _ _ _ h1 h2 => le_trans h2 h1⟩

/-- The limit argument of the list operations after Number coercion: the
sentinel string "all" or a row count. -/
inductive Lim where
  | all : Lim
  | num (n : Nat) : Lim

/-- JS object spread `\x7b ...base, ...fields\x7d` merge: keys of base in
order (a key also in fields takes fields' value), then the keys only in
fields. -/
def jsMergeFields (base fields : Payload) : Payload :=
  base.map (fun kv => ((kv.1, (lookupA fields kv.1).getD kv.2) : String × JVal))
  ++ fields.filter (fun kv => (lookupA base kv.1).isNone)

/-- The row-to-record mapping of the list and get-by-id operations:
`\x7b id: row.id, receivedAt: row.receivedAt, ...JSON.parse(row.data) \x7d`. -/
def toRecord (r : Row) : Payload :=
  jsMergeFields [("id", .str r.id), ("receivedAt", .str r.receivedAt)] r.data

/-- getAllManagers: WHERE clause, ORDER BY receivedAt DESC, then LIMIT ?
OFFSET ? unless limit is the sentinel "all", each row expanded to a
record. -/
def getAllManagers (limit : Lim) (offset : Nat) (search : String) (filters : List (String × JVal)) (db : DB) : List Payload :=
  let rows := (db.managers.filter (rowMatches search filters)).insertionSort rowLeDesc
  let page :=
    match limit with
    | .all => rows
    | .num n => (rows.drop offset).take n
  page.map toRecord

/-- getAllWorkers, same query shape over the workers table. -/
def getAllWorkers (limit : Lim) (offset : Nat) (search : String) (filters : List (String × JVal)) (db : DB) : List Payload :=
  let rows := (db.workers.filter (rowMatches search filters)).insertionSort rowLeDesc
  let page :=
    match limit with
    | .all => rows
    | .num n => (rows.drop offset).take n
  page.map toRecord

/-- getManagersCount: SELECT COUNT(*) under the same WHERE clause. -/
def getManagersCount (search : String) (filters : List (String × JVal)) (db : DB) : Nat :=
  (db.managers.filter (rowMatches search filters)).length

/-- getWorkersCount: SELECT COUNT(*) under the same WHERE clause. -/
def getWorkersCount (search : String) (filters : List (String × JVal)) (db : DB) : Nat :=
  (db.workers.filter (rowMatches search filters)).length

/-- The argument of addManager/addWorker: the submitted entry object with
its (optional) id and receivedAt properties destructured from the payload
fields, as `const \x7b id, receivedAt, ...data \x7d = entry` does. -/
structure Entry where
  id : Option String
  receivedAt : Option String
  fields : Payload

/-- JS `opt || fallback` for an optional string: the stored string when
present and non-empty (truthy), else the fallback. -/
def jsOrElse (opt : Option String) (fallback : String) : String :=
  match opt with
  | some s => if s == "" then fallback else s
  | none => fallback

/-- addManager: a fresh id (Date.now()+random, passed in as freshId) when
none is supplied, receivedAt defaulted to the current ISO time (nowIso),
the remaining fields serialized into the data column; INSERT fails (none)
when the id collides with an existing PRIMARY KEY. Returns the new state
and the assigned id. -/
def addManager (entry : Entry) (freshId nowIso : String) (db : DB) : Option (DB × String) :=
  let newId := jsOrElse entry.id freshId
  let finalReceivedAt := jsOrElse entry.receivedAt nowIso
  if db.managers.any (fun r => r.id == newId) then none
  else some ({ db with managers := db.managers ++ [⟨newId, finalReceivedAt, entry.fields⟩] }, newId)

/-- addWorker, same operation over the workers table. -/
def addWorker (entry : Entry) (freshId nowIso : String) (db : DB) : Option (DB × String) :=
  let newId := jsOrElse entry.id freshId
  let finalReceivedAt := jsOrElse entry.receivedAt nowIso
  if db.workers.any (fun r => r.id == newId) then none
  else some ({ db with workers := db.workers ++ [⟨newId, finalReceivedAt, entry.fields⟩] }, newId)

/-- getManagerById: SELECT * WHERE id = ?, null when absent, else the
expanded record. -/
def getManagerById (id : String) (db : DB) : Option Payload :=
  (db.managers.find? (fun r => r.id == id)).map toRecord

/-- getWorkerById, same over the workers table. -/
def getWorkerById (id : String) (db : DB) : Option Payload :=
  (db.workers.find? (fun r => r.id == id)).map toRecord

/-- deleteManager: DELETE WHERE id = ?; returns changes > 0. -/
def deleteManager (id : String) (db : DB) : DB × Bool :=
  ({ db with managers := db.managers.filter (fun r => r.id != id) },
   db.managers.any (fun r => r.id == id))

/-- deleteWorker: DELETE WHERE id = ?; returns changes > 0. -/
def deleteWorker (id : String) (db : DB) : DB × Bool :=
  ({ db with workers := db.workers.filter (fun r => r.id != id) },
   db.workers.any (fun r => r.id == id))

/-- The result object of getSurveyLockStatus. -/
structure LockStatus where
  worker : Bool
  manager : Bool
deriving Repr, DecidableEq

/-- getSurveyLockStatus: SELECT the two lock keys from settings, then fold
the returned rows over defaults (false, false), a value of "1" meaning
locked. -/
def getSurveyLockStatus (db : DB) : LockStatus :=
  let rows := db.settings.filter (fun kv => kv.1 == "lock_worker" || kv.1 == "lock_manager")
  rows.foldl
    (fun st kv =>
      ⟨if kv.1 == "lock_worker" then kv.2 == "1" else st.worker,
       if kv.1 == "lock_manager" then kv.2 == "1" else st.manager⟩)
    ⟨false, false⟩

/-- setSurveyLock: the key is lock_worker exactly when the type argument is
the string "worker" (anything else selects lock_manager), the value "1" or
"0"; upsert keyed on the settings PRIMARY KEY. -/
def setSurveyLock (type : String) (locked : Bool) (db : DB) : DB :=
  let key := if type == "worker" then "lock_worker" else "lock_manager"
  let value := if locked then "1" else "0"
  { db with settings := setAssoc db.settings key value }

/-- One table pass of cleanBranchNames: every row is scanned, processRow
rewrites its payload (persisted by UPDATE ... WHERE id = ?, the id being a
PRIMARY KEY), and the rows for which an UPDATE was issued are counted. -/
def cleanTable (rows : List Row) : List Row × Nat :=
  (rows.map (fun r => { r with data := (processRow r.data).1 }),
   rows.countP (fun r => (processRow r.data).2))

/-- cleanBranchNames: the pass over the workers and managers tables; returns
the new state and the total number of updated rows. -/
def cleanBranchNames (db : DB) : DB × Nat :=
  let w := cleanTable db.workers
  let m := cleanTable db.managers
  ({ db with workers := w.1, managers := m.1 }, w.2 + m.2)

/-! Association-list lemmas shared by the claim theorems. -/

theorem lookupA_setAssoc_self {α : Type} (l : List (String × α)) (k : String) (v : α) :
    lookupA (setAssoc l k v) k = some v := by
  induction l with
  | nil => simp [setAssoc, lookupA]
  | cons kv rest ih =>
    by_cases h : kv.1 = k
    · simp [setAssoc, h, lookupA]
    · simp only [setAssoc, h, if_false]
      simpa [lookupA, List.find?, h] using ih

theorem lookupA_setAssoc_ne {α : Type} (l : List (String × α)) (k k' : String) (v : α)
    (h : k' ≠ k) : lookupA (setAssoc l k v) k' = lookupA l k' := by
  induction l with
  | nil => simp [setAssoc, lookupA, List.find?, Ne.symm h]
  | cons kv rest ih =>
    by_cases hk : kv.1 = k
    · subst hk
      simp [setAssoc, lookupA, List.find?, Ne.symm h]
    · by_cases hk' : kv.1 = k'
      · simp only [setAssoc, hk, if_false]
        simp [lookupA, List.find?, hk']
      · simp only [setAssoc, hk, if_false]
        simpa [lookupA, List.find?, hk'] using ih

theorem lookupA_eq_none_iff {α : Type} {l : List (String × α)} {k : String} :
    lookupA l k = none ↔ ∀ kv ∈ l, kv.1 ≠ k := by
  simp [lookupA, List.find?_eq_none]

theorem lookupA_isSome_of_mem {α : Type} {l : List (String × α)} {kv : String × α}
    (h : kv ∈ l) : lookupA l kv.1 ≠ none := by
  intro hnone
  exact (lookupA_eq_none_iff.mp hnone) kv h rfl

theorem setAssoc_of_absent {α : Type} (l : List (String × α)) (k : String) (v : α)
    (h : lookupA l k = none) : setAssoc l k v = l ++ [(k, v)] := by
  induction l with
  | nil => simp [setAssoc]
  | cons kv rest ih =>
    have hk : kv.1 ≠ k := (lookupA_eq_none_iff.mp h) kv (by simp)
    have hrest : lookupA rest k = none := by
      rw [lookupA_eq_none_iff]
      intro x hx
      exact (lookupA_eq_none_iff.mp h) x (by simp [hx])
    simp [setAssoc, hk, ih hrest]

theorem map_fst_setAssoc {α : Type} (l : List (String × α)) (k : String) (v : α)
    (h : lookupA l k ≠ none) : (setAssoc l k v).map Prod.fst = l.map Prod.fst := by
  induction l with
  | nil => simp [lookupA] at h
  | cons kv rest ih =>
    by_cases hk : kv.1 = k
    · simp [setAssoc, hk]
    · have hrest : lookupA rest k ≠ none := by
        intro hnone
        apply h
        rw [lookupA_eq_none_iff]
        intro x hx
        rcases List.mem_cons.mp hx with h1 | h1
        · subst h1; exact hk
        · exact (lookupA_eq_none_iff.mp hnone) x h1
      simp [setAssoc, hk, ih hrest]

theorem find?_key_setAssoc {α : Type} (p : String → Bool) (l : List (String × α))
    (k : String) (v : α) (w : α)
    (h : l.find? (fun kv => p kv.1) = some (k, v)) :
    (setAssoc l k w).find? (fun kv => p kv.1) = some (k, w) := by
  have hpk : p k = true := by
    have := List.find?_some h
    simpa using this
  induction l with
  | nil => simp [List.find?] at h
  | cons kv rest ih =>
    by_cases hp : p kv.1 = true
    · have hc : List.find? (fun kv => p kv.1) (kv :: rest) = some kv :=
        List.find?_cons_of_pos (p := fun x => p x.1) rest (by simpa using hp)
      rw [hc] at h
      injection h with h
      subst h
      have hset : setAssoc ((k, v) :: rest) k w = (k, w) :: rest := by simp [setAssoc]
      rw [hset]
      exact List.find?_cons_of_pos (p := fun x => p x.1) (a := (k, w)) rest (by simpa using hpk)
    · have hc : List.find? (fun kv => p kv.1) (kv :: rest) = List.find? (fun kv => p kv.1) rest :=
        List.find?_cons_of_neg (p := fun x => p x.1) rest (by simpa using hp)
      rw [hc] at h
      have hk : kv.1 ≠ k := by
        intro hkk
        exact hp (by rw [hkk]; exact hpk)
      simp only [setAssoc, hk, if_false]
      rw [List.find?_cons_of_neg (p := fun x => p x.1) (setAssoc rest k w) (by simpa using hp)]
      exact ih h

theorem lookupA_append_of_none {α : Type} (l₁ l₂ : List (String × α)) (k : String)
    (h : lookupA l₁ k = none) : lookupA (l₁ ++ l₂) k = lookupA l₂ k := by
  induction l₁ with
  | nil => simp
  | cons kv rest ih =>
    have hk : kv.1 ≠ k := (lookupA_eq_none_iff.mp h) kv (by simp)
    have hrest : lookupA rest k = none := by
      rw [lookupA_eq_none_iff]
      intro x hx
      exact (lookupA_eq_none_iff.mp h) x (by simp [hx])
    simpa [lookupA, List.find?, hk] using ih hrest

theorem lookupA_filter {α : Type} (l : List (String × α)) (p : String × α → Bool)
    (k : String) (hp : ∀ v : α, p (k, v) = true) :
    lookupA (l.filter p) k = lookupA l k := by
  induction l with
  | nil => simp
  | cons kv rest ih =>
    by_cases hk : kv.1 = k
    · have hpkv : p kv = true := by
        have hkv : kv = (k, kv.2) := by
          cases kv; simp_all
        rw [hkv]; exact hp kv.2
      simp [List.filter_cons, hpkv, lookupA, List.find?, hk]
    · by_cases hpkv : p kv = true
      · simpa [List.filter_cons, hpkv, lookupA, List.find?, hk] using ih
      · have hpkv' : p kv = false := by
          simpa using hpkv
        simpa [List.filter_cons, hpkv', lookupA, List.find?, hk] using ih

/-! cleanBranchNames: fixed points of the matcher and idempotence. -/

/-- Every canonical city name is a fixed point of the matching logic: its
normalized form matches its own keyword list and no list of a city checked
at higher priority. -/
theorem canonical_fixed : ∀ c ∈ canonicalCities, computeNewBranch c = some c := by decide

theorem canonical_ne_empty : ∀ c ∈ canonicalCities, c ≠ "" := by decide

/-- computeNewBranch only ever produces a canonical city name. -/
theorem computeNewBranch_canonical {bv c : String} (h : computeNewBranch bv = some c) :
    c ∈ canonicalCities := by
  unfold computeNewBranch at h
  dsimp only [] at h
  repeat' split at h
  all_goals first
    | (injection h with h; subst h; decide)
    | exact Option.noConfusion h

/-- processRow written as one match on the computed branch name. -/
theorem processRow_eq (data : Payload) :
    processRow data =
      match computeNewBranch (coerceBranchValue (findBranchField data).2) with
      | some newBranch =>
        if newBranch ≠ coerceBranchValue (findBranchField data).2
        then (setAssoc data (findBranchField data).1 (.str newBranch), true)
        else (data, false)
      | none => (data, false) := rfl

theorem processRow_of_none_or_eq (data : Payload)
    (h : computeNewBranch (coerceBranchValue (findBranchField data).2) = none ∨
         computeNewBranch (coerceBranchValue (findBranchField data).2)
           = some (coerceBranchValue (findBranchField data).2)) :
    processRow data = (data, false) := by
  rw [processRow_eq]
  rcases h with h | h <;> simp [h]

theorem processRow_of_update (data : Payload) (nb : String)
    (h : computeNewBranch (coerceBranchValue (findBranchField data).2) = some nb)
    (hne : nb ≠ coerceBranchValue (findBranchField data).2) :
    processRow data = (setAssoc data (findBranchField data).1 (.str nb), true) := by
  rw [processRow_eq, h]
  simp [hne]

/-- Rewriting the located branch field does not move it: the relocation step
finds the same key afterwards, now holding the written value. -/
theorem findBranchField_setAssoc (data : Payload) (v : JVal) :
    findBranchField (setAssoc data (findBranchField data).1 v)
      = ((findBranchField data).1, some v) := by
  rcases h1 : lookupA data branchFieldKey with _ | v0
  · rcases h2 : data.find? (fun kv => isBranchLikeKey kv.1) with _ | kv
    · have hbk : (findBranchField data).1 = branchFieldKey := by
        simp [findBranchField, h1, h2]
      rw [hbk]
      unfold findBranchField
      rw [lookupA_setAssoc_self]
    · have hbk : (findBranchField data).1 = kv.1 := by
        simp [findBranchField, h1, h2]
      have hkmem : kv ∈ data := List.mem_of_find?_eq_some h2
      have hkne : kv.1 ≠ branchFieldKey := by
        intro he
        exact lookupA_isSome_of_mem hkmem (he ▸ h1)
      rw [hbk]
      unfold findBranchField
      rw [lookupA_setAssoc_ne _ _ _ _ (Ne.symm hkne), h1]
      rw [find?_key_setAssoc (fun k => isBranchLikeKey k) data kv.1 kv.2 v h2]
  · have hbk : (findBranchField data).1 = branchFieldKey := by
      simp [findBranchField, h1]
    rw [hbk]
    unfold findBranchField
    rw [lookupA_setAssoc_self]

/-- A second pass over a payload already processed once issues no UPDATE. -/
theorem processRow_idem (data : Payload) : (processRow (processRow data).1).2 = false := by
  rcases hcb : computeNewBranch (coerceBranchValue (findBranchField data).2) with _ | nb
  · have heq := processRow_of_none_or_eq data (Or.inl hcb)
    simp [heq]
  · by_cases hne : nb = coerceBranchValue (findBranchField data).2
    · have heq := processRow_of_none_or_eq data (Or.inr (hne ▸ hcb))
      simp [heq]
    · have heq := processRow_of_update data nb hcb hne
      have hcanon := computeNewBranch_canonical hcb
      have hnb : nb ≠ "" := canonical_ne_empty nb hcanon
      have hfb := findBranchField_setAssoc data (.str nb)
      have hco : coerceBranchValue (some (.str nb)) = nb := by
        simp [coerceBranchValue, JVal.truthy, hnb]
      have hfix : computeNewBranch nb = some nb := canonical_fixed nb hcanon
      have heq2 : processRow (setAssoc data (findBranchField data).1 (.str nb))
          = (setAssoc data (findBranchField data).1 (.str nb), false) := by
        apply processRow_of_none_or_eq
        right
        rw [hfb]
        simp only [hco]
        exact hfix
      simp [heq, heq2]

theorem cleanTable_second_pass (rows : List Row) :
    (cleanTable (cleanTable rows).1).2 = 0 := by
  simp only [cleanTable, List.countP_map]
  rw [List.countP_eq_zero]
  intro r _
  simp [Function.comp, processRow_idem]

/-- C3: cleanBranchNames run twice in succession on the same data changes
zero rows on the second run, for every starting database state: each
canonical city name, after normalization, matches no keyword list of a
different city checked at equal or higher priority, so a rewritten branch
field is a fixed point of the second pass. -/
theorem cleanBranchNames_idempotent (db : DB) :
    (cleanBranchNames (cleanBranchNames db).1).2 = 0 := by
  show (cleanTable (cleanTable db.workers).1).2 + (cleanTable (cleanTable db.managers).1).2 = 0
  rw [cleanTable_second_pass, cleanTable_second_pass]

/-- C4: a worker survey whose payload holds "جسر الشغور" under the branch
key, stored by addWorker, has that field rewritten to "إدلب" by the next
cleanBranchNames pass; the normalized value matches the Idlib keyword list
and no keyword list of a city checked at higher priority. -/
theorem cleanBranchNames_jisr_scenario :
    (addWorker ⟨none, none, [("الرقابة عادلة؟", .str "نعم"), ("اسم الفرع", .str "جسر الشغور")]⟩
        "1700000000000abc" "2024-01-01T00:00:00.000Z" ⟨[], [], []⟩).map
        (fun res => ((cleanBranchNames res.1).1.workers.map Row.data, (cleanBranchNames res.1).2))
      = some ([[("الرقابة عادلة؟", .str "نعم"), ("اسم الفرع", .str "إدلب")]], 1) ∧
    computeNewBranch "جسر الشغور" = some "إدلب" ∧
    keywordMatch idlibKeywords (normalizeAr "جسر الشغور") = true ∧
    keywordMatch aleppoKeywords (normalizeAr "جسر الشغور") = false ∧
    keywordMatch tartusKeywords (normalizeAr "جسر الشغور") = false ∧
    keywordMatch raqqaKeywords (normalizeAr "جسر الشغور") = false ∧
    keywordMatch hamaKeywords (normalizeAr "جسر الشغور") = false ∧
    keywordMatch daraaKeywords (normalizeAr "جسر الشغور") = false ∧
    keywordMatch deirEzorKeywords (normalizeAr "جسر الشغور") = false ∧
    keywordMatch homsKeywords (normalizeAr "جسر الشغور") = false ∧
    keywordMatch lattakiaKeywords (normalizeAr "جسر الشغور") = false ∧
    keywordMatch damascusKeywords (normalizeAr "جسر الشغور") = false := by
  refine ⟨rfl, ?_, ?_, ?_, ?_, ?_, ?_, ?_, ?_, ?_, ?_, ?_⟩ <;> decide

/-- C2: for every search string, filters mapping and database state, and
for each kind, the count operation returns exactly the length of the list
operation with the sentinel limit "all", offset 0 and the same search and
filters: both evaluate the same WHERE predicate over the same table. -/
theorem count_eq_length_of_list_all (search : String) (filters : List (String × JVal)) (db : DB) :
    getManagersCount search filters db = (getAllManagers .all 0 search filters db).length ∧
    getWorkersCount search filters db = (getAllWorkers .all 0 search filters db).length := by
  constructor <;>
    simp [getManagersCount, getAllManagers, getWorkersCount, getAllWorkers]

/-- C5: with the sentinel limit "all" no LIMIT/OFFSET is applied: the
result is independent of the offset argument, and it is exactly the rows
satisfying the WHERE predicate (a permutation of the filtered table),
ordered by receivedAt descending, each expanded to a record; for both
kinds. -/
theorem getAll_limit_all_returns_everything (search : String) (filters : List (String × JVal))
    (db : DB) (off off' : Nat) :
    (getAllManagers .all off search filters db = getAllManagers .all off' search filters db) ∧
    (∃ rows : List Row, rows.Perm (db.managers.filter (rowMatches search filters)) ∧
       List.Sorted rowLeDesc rows ∧
       getAllManagers .all off search filters db = rows.map toRecord) ∧
    (getAllWorkers .all off search filters db = getAllWorkers .all off' search filters db) ∧
    (∃ rows : List Row, rows.Perm (db.workers.filter (rowMatches search filters)) ∧
       List.Sorted rowLeDesc rows ∧
       getAllWorkers .all off search filters db = rows.map toRecord) :=
  ⟨rfl,
   ⟨_, List.perm_insertionSort rowLeDesc _, List.sorted_insertionSort rowLeDesc _, rfl⟩,
   rfl,
   ⟨_, List.perm_insertionSort rowLeDesc _, List.sorted_insertionSort rowLeDesc _, rfl⟩⟩

/-- C6: the delete operations return true exactly when a row with the given
id existed (and remove every such row), false otherwise, for both kinds;
in particular deleting the same id twice returns true then false. -/
theorem delete_returns_existence (id : String) (db : DB) :
    ((deleteManager id db).2 = true ↔ ∃ r ∈ db.managers, r.id = id) ∧
    (∀ r ∈ (deleteManager id db).1.managers, r.id ≠ id) ∧
    (deleteManager id (deleteManager id db).1).2 = false ∧
    ((deleteWorker id db).2 = true ↔ ∃ r ∈ db.workers, r.id = id) ∧
    (∀ r ∈ (deleteWorker id db).1.workers, r.id ≠ id) ∧
    (deleteWorker id (deleteWorker id db).1).2 = false := by
  refine ⟨?_, ?_, ?_, ?_, ?_, ?_⟩ <;>
    simp [deleteManager, deleteWorker, List.any_eq_true, List.mem_filter]

/-- C7: on a state whose settings hold neither lock key,
getSurveyLockStatus returns both flags false; and after
setSurveyLock "worker" true on that state it returns worker locked,
manager still unlocked. -/
theorem lockStatus_defaults (db : DB)
    (hw : lookupA db.settings "lock_worker" = none)
    (hm : lookupA db.settings "lock_manager" = none) :
    getSurveyLockStatus db = ⟨false, false⟩ ∧
    getSurveyLockStatus (setSurveyLock "worker" true db) = ⟨true, false⟩ := by
  have hfilter : db.settings.filter
      (fun kv => kv.1 == "lock_worker" || kv.1 == "lock_manager") = [] := by
    rw [List.filter_eq_nil_iff]
    intro kv hkv
    have h1 := (lookupA_eq_none_iff.mp hw) kv hkv
    have h2 := (lookupA_eq_none_iff.mp hm) kv hkv
    simp [h1, h2]
  constructor
  · simp [getSurveyLockStatus, hfilter]
  · have hset : setAssoc db.settings "lock_worker" "1"
        = db.settings ++ [("lock_worker", "1")] := setAssoc_of_absent _ _ _ hw
    simp [getSurveyLockStatus, setSurveyLock, hset, List.filter_append, hfilter]

/-- C7 witness at the empty state. -/
theorem lockStatus_defaults_witness :
    getSurveyLockStatus ⟨[], [], []⟩ = ⟨false, false⟩ ∧
    getSurveyLockStatus (setSurveyLock "worker" true ⟨[], [], []⟩) = ⟨true, false⟩ :=
  lockStatus_defaults ⟨[], [], []⟩ rfl rfl

/-- C10: any type argument other than the exact string "worker" makes
setSurveyLock write the lock_manager settings key (leaving lock_worker
untouched) instead of failing or being rejected. -/
theorem setSurveyLock_nonworker (type : String) (locked : Bool) (db : DB)
    (h : type ≠ "worker") :
    lookupA (setSurveyLock type locked db).settings "lock_manager"
        = some (if locked then "1" else "0") ∧
    lookupA (setSurveyLock type locked db).settings "lock_worker"
        = lookupA db.settings "lock_worker" := by
  have hkey : (setSurveyLock type locked db).settings
      = setAssoc db.settings "lock_manager" (if locked then "1" else "0") := by
    simp [setSurveyLock, h]
  rw [hkey]
  exact ⟨lookupA_setAssoc_self _ _ _, lookupA_setAssoc_ne _ _ _ _ (by decide)⟩

/-- C10 witness at the capitalized type string "Worker" on the empty
state. -/
theorem setSurveyLock_nonworker_witness :
    lookupA (setSurveyLock "Worker" true ⟨[], [], []⟩).settings "lock_manager" = some "1" ∧
    lookupA (setSurveyLock "Worker" true ⟨[], [], []⟩).settings "lock_worker"
        = lookupA (DB.mk [] [] []).settings "lock_worker" :=
  setSurveyLock_nonworker "Worker" true ⟨[], [], []⟩ (by decide)

/-! Add/get-by-id roundtrip (C1). -/

theorem lookupA_cons_of_ne {α : Type} (kv : String × α) (l : List (String × α)) (k : String)
    (h : kv.1 ≠ k) : lookupA (kv :: l) k = lookupA l k := by
  simp [lookupA, List.find?, h]

theorem find?_append_singleton {α : Type} (l : List α) (x : α) (p : α → Bool)
    (hl : ∀ y ∈ l, ¬ p y = true) (hx : p x = true) :
    (l ++ [x]).find? p = some x := by
  induction l with
  | nil => simp [List.find?, hx]
  | cons a as ih =>
    have ha : ¬ p a = true := hl a (by simp)
    rw [List.cons_append, List.find?_cons_of_neg _ ha]
    exact ih (fun y hy => hl y (by simp [hy]))

/-- The record read back for a row whose payload does not hold the hoisted
keys: the id and receivedAt columns appear in front and every payload field
is reachable unchanged. -/
theorem toRecord_fresh (entry : Entry) (newId fr : String)
    (hid : lookupA entry.fields "id" = none)
    (hrecv : lookupA entry.fields "receivedAt" = none) :
    lookupA (toRecord ⟨newId, fr, entry.fields⟩) "id" = some (.str newId) ∧
    lookupA (toRecord ⟨newId, fr, entry.fields⟩) "receivedAt" = some (.str fr) ∧
    ∀ k v, lookupA entry.fields k = some v →
      lookupA (toRecord ⟨newId, fr, entry.fields⟩) k = some v := by
  have hmerge : toRecord ⟨newId, fr, entry.fields⟩
      = ("id", JVal.str newId) :: ("receivedAt", JVal.str fr)
        :: entry.fields.filter
            (fun kv => (lookupA [("id", JVal.str newId), ("receivedAt", JVal.str fr)] kv.1).isNone) := by
    simp [toRecord, jsMergeFields, hid, hrecv]
  refine ⟨?_, ?_, ?_⟩
  · rw [hmerge]; simp [lookupA, List.find?]
  · rw [hmerge]; simp [lookupA, List.find?]
  · intro k v hkv
    have hk1 : k ≠ "id" := by
      rintro rfl; rw [hid] at hkv; exact Option.noConfusion hkv
    have hk2 : k ≠ "receivedAt" := by
      rintro rfl; rw [hrecv] at hkv; exact Option.noConfusion hkv
    rw [hmerge,
        lookupA_cons_of_ne _ _ _ (Ne.symm hk1),
        lookupA_cons_of_ne _ _ _ (Ne.symm hk2),
        lookupA_filter _ _ _ (fun v0 => by simp [lookupA, List.find?, Ne.symm hk1, Ne.symm hk2])]
    exact hkv

theorem addManager_some_inv (entry : Entry) (freshId nowIso : String) (db db' : DB)
    (newId : String) (h : addManager entry freshId nowIso db = some (db', newId)) :
    newId = jsOrElse entry.id freshId ∧
    db.managers.any (fun r => r.id == newId) = false ∧
    db' = { db with managers :=
      db.managers ++ [⟨newId, jsOrElse entry.receivedAt nowIso, entry.fields⟩] } := by
  unfold addManager at h
  dsimp only [] at h
  split at h
  next hc => exact Option.noConfusion h
  next hc =>
    injection h with h
    rw [Prod.mk.injEq] at h
    obtain ⟨hdb, hnid⟩ := h
    subst hnid
    exact ⟨rfl, by simpa using hc, hdb.symm⟩

theorem addWorker_some_inv (entry : Entry) (freshId nowIso : String) (db db' : DB)
    (newId : String) (h : addWorker entry freshId nowIso db = some (db', newId)) :
    newId = jsOrElse entry.id freshId ∧
    db.workers.any (fun r => r.id == newId) = false ∧
    db' = { db with workers :=
      db.workers ++ [⟨newId, jsOrElse entry.receivedAt nowIso, entry.fields⟩] } := by
  unfold addWorker at h
  dsimp only [] at h
  split at h
  next hc => exact Option.noConfusion h
  next hc =>
    injection h with h
    rw [Prod.mk.injEq] at h
    obtain ⟨hdb, hnid⟩ := h
    subst hnid
    exact ⟨rfl, by simpa using hc, hdb.symm⟩

/-- C1: storing an entry via addManager/addWorker and reading the assigned
id back via getManagerById/getWorkerById returns a record holding every
payload field of the entry with its value unchanged, plus an id field equal
to the assigned id and a receivedAt timestamp field. -/
theorem add_get_roundtrip (entry : Entry) (freshId nowIso : String)
    (dbM dbM' dbW dbW' : DB) (idM idW : String)
    (hid : lookupA entry.fields "id" = none)
    (hrecv : lookupA entry.fields "receivedAt" = none)
    (haddM : addManager entry freshId nowIso dbM = some (dbM', idM))
    (haddW : addWorker entry freshId nowIso dbW = some (dbW', idW)) :
    (∃ rec : Payload, getManagerById idM dbM' = some rec ∧
       lookupA rec "id" = some (.str idM) ∧
       (∃ t, lookupA rec "receivedAt" = some (.str t)) ∧
       ∀ k v, lookupA entry.fields k = some v → lookupA rec k = some v) ∧
    (∃ rec : Payload, getWorkerById idW dbW' = some rec ∧
       lookupA rec "id" = some (.str idW) ∧
       (∃ t, lookupA rec "receivedAt" = some (.str t)) ∧
       ∀ k v, lookupA entry.fields k = some v → lookupA rec k = some v) := by
  obtain ⟨hnidM, hanyM, hdbM⟩ := addManager_some_inv entry freshId nowIso dbM dbM' idM haddM
  obtain ⟨hnidW, hanyW, hdbW⟩ := addWorker_some_inv entry freshId nowIso dbW dbW' idW haddW
  obtain ⟨hrid, hrrecv, hrfields⟩ := toRecord_fresh entry idM (jsOrElse entry.receivedAt nowIso) hid hrecv
  obtain ⟨hrid', hrrecv', hrfields'⟩ := toRecord_fresh entry idW (jsOrElse entry.receivedAt nowIso) hid hrecv
  constructor
  · refine ⟨toRecord ⟨idM, jsOrElse entry.receivedAt nowIso, entry.fields⟩, ?_, hrid, ⟨_, hrrecv⟩, hrfields⟩
    rw [hdbM]
    unfold getManagerById
    rw [find?_append_singleton _ _ _ (by simpa [List.any_eq_true] using hanyM) (by simp)]
    rfl
  · refine ⟨toRecord ⟨idW, jsOrElse entry.receivedAt nowIso, entry.fields⟩, ?_, hrid', ⟨_, hrrecv'⟩, hrfields'⟩
    rw [hdbW]
    unfold getWorkerById
    rw [find?_append_singleton _ _ _ (by simpa [List.any_eq_true] using hanyW) (by simp)]
    rfl

/-- C1 witness: a one-field entry stored into the empty database. -/
theorem add_get_roundtrip_witness :
    (∃ rec : Payload, getManagerById "id1" ⟨[⟨"id1", "t0", [("سؤال", .str "جواب")]⟩], [], []⟩ = some rec ∧
       lookupA rec "id" = some (.str "id1") ∧
       (∃ t, lookupA rec "receivedAt" = some (.str t)) ∧
       ∀ k v, lookupA [(("سؤال" : String), JVal.str "جواب")] k = some v → lookupA rec k = some v) ∧
    (∃ rec : Payload, getWorkerById "id1" ⟨[], [⟨"id1", "t0", [("سؤال", .str "جواب")]⟩], []⟩ = some rec ∧
       lookupA rec "id" = some (.str "id1") ∧
       (∃ t, lookupA rec "receivedAt" = some (.str t)) ∧
       ∀ k v, lookupA [(("سؤال" : String), JVal.str "جواب")] k = some v → lookupA rec k = some v) :=
  add_get_roundtrip ⟨none, none, [("سؤال", .str "جواب")]⟩ "id1" "t0"
    ⟨[], [], []⟩ ⟨[⟨"id1", "t0", [("سؤال", .str "جواب")]⟩], [], []⟩
    ⟨[], [], []⟩ ⟨[], [⟨"id1", "t0", [("سؤال", .str "جواب")]⟩], []⟩
    "id1" "id1" rfl rfl rfl rfl

/-! Frame property of cleanBranchNames (C9). -/

theorem computeNewBranch_empty : computeNewBranch "" = none := by decide

theorem findBranchField_key_present (data : Payload) (v : JVal)
    (h : (findBranchField data).2 = some v) :
    lookupA data (findBranchField data).1 ≠ none := by
  rcases h1 : lookupA data branchFieldKey with _ | v0
  · rcases h2 : data.find? (fun kv => isBranchLikeKey kv.1) with _ | kv
    · have : findBranchField data = (branchFieldKey, none) := by
        simp [findBranchField, h1, h2]
      rw [this] at h
      exact Option.noConfusion h
    · have hf : findBranchField data = (kv.1, some kv.2) := by
        simp [findBranchField, h1, h2]
      rw [hf]
      exact lookupA_isSome_of_mem (List.mem_of_find?_eq_some h2)
  · have hf : findBranchField data = (branchFieldKey, some v0) := by
      simp [findBranchField, h1]
    rw [hf]
    simp [h1]

theorem map_id_cleanTable (rows : List Row) :
    (cleanTable rows).1.map Row.id = rows.map Row.id := by
  simp [cleanTable, List.map_map]

theorem map_receivedAt_cleanTable (rows : List Row) :
    (cleanTable rows).1.map Row.receivedAt = rows.map Row.receivedAt := by
  simp [cleanTable, List.map_map]

/-- C9: cleanBranchNames modifies, in each record it rewrites, only the
located branch-name payload field: ids and receivedAt columns are
unchanged, the payload keeps its keys and every other field its value, and
a record whose computed canonical name equals the stored branch value (or
for which none is computed) is not written at all. -/
theorem cleanBranchNames_frame (db : DB) (data : Payload) :
    ((cleanBranchNames db).1.workers.map Row.id = db.workers.map Row.id ∧
     (cleanBranchNames db).1.workers.map Row.receivedAt = db.workers.map Row.receivedAt ∧
     (cleanBranchNames db).1.managers.map Row.id = db.managers.map Row.id ∧
     (cleanBranchNames db).1.managers.map Row.receivedAt = db.managers.map Row.receivedAt) ∧
    ((processRow data).2 = false → (processRow data).1 = data) ∧
    ((computeNewBranch (coerceBranchValue (findBranchField data).2) = none ∨
      computeNewBranch (coerceBranchValue (findBranchField data).2)
        = some (coerceBranchValue (findBranchField data).2)) →
      processRow data = (data, false)) ∧
    ((processRow data).1.map Prod.fst = data.map Prod.fst ∧
       ∀ k, k ≠ (findBranchField data).1 →
         lookupA ((processRow data).1) k = lookupA data k) := by
  refine ⟨⟨map_id_cleanTable _, map_receivedAt_cleanTable _,
          map_id_cleanTable _, map_receivedAt_cleanTable _⟩, ?_, processRow_of_none_or_eq data, ?_⟩
  · intro h2
    rcases hcb : computeNewBranch (coerceBranchValue (findBranchField data).2) with _ | nb
    · rw [processRow_of_none_or_eq data (Or.inl hcb)]
    · by_cases hne : nb = coerceBranchValue (findBranchField data).2
      · rw [processRow_of_none_or_eq data (Or.inr (hne ▸ hcb))]
      · rw [processRow_of_update data nb hcb hne] at h2
        exact absurd h2 (by simp)
  · rcases hcb : computeNewBranch (coerceBranchValue (findBranchField data).2) with _ | nb
    · refine ⟨?_, ?_⟩
      · rw [processRow_of_none_or_eq data (Or.inl hcb)]
      · intro k _
        rw [processRow_of_none_or_eq data (Or.inl hcb)]
    · by_cases hne : nb = coerceBranchValue (findBranchField data).2
      · refine ⟨?_, ?_⟩
        · rw [processRow_of_none_or_eq data (Or.inr (hne ▸ hcb))]
        · intro k _
          rw [processRow_of_none_or_eq data (Or.inr (hne ▸ hcb))]
      · rcases hv : (findBranchField data).2 with _ | v
        · rw [hv] at hcb
          rw [show coerceBranchValue none = "" from rfl, computeNewBranch_empty] at hcb
          exact Option.noConfusion hcb
        · have hpresent := findBranchField_key_present data v hv
          refine ⟨?_, ?_⟩
          · rw [processRow_of_update data nb hcb hne]
            exact map_fst_setAssoc data _ _ hpresent
          · intro k hk
            rw [processRow_of_update data nb hcb hne]
            exact lookupA_setAssoc_ne data _ k _ hk

/-! buildWhereClause (C8). -/

/-- Result of buildWhereClause: the SQL fragment and the positional
parameters bound to it. -/
structure WhereResult where
  whereFragment : String
  params : List JVal
deriving Repr

/-- The `values.map(() => one placeholder).join(',')` placeholder list. -/
def placeholders (n : Nat) : String :=
  String.intercalate "," (List.replicate n "?")

/-- The search condition pushed by buildWhereClause, per engine. -/
def searchCondition (isMysql : Bool) : String :=
  if isMysql then "(CAST(data AS CHAR) LIKE ? OR receivedAt LIKE ?)"
  else "(data LIKE ? OR receivedAt LIKE ?)"

/-- The one IN predicate pushed by buildWhereClause for a filter key with n
values: the receivedAt pseudo-field compares the column directly, any other
key an engine-specific JSON-path extraction of the payload. -/
def filterCondition (isMysql : Bool) (key : String) (n : Nat) : String :=
  if key = "receivedAt" then "receivedAt IN (" ++ placeholders n ++ ")"
  else if isMysql then "data->>'$." ++ key ++ "' IN (" ++ placeholders n ++ ")"
  else "json_extract(data, '$." ++ key ++ "') IN (" ++ placeholders n ++ ")"

/-- buildWhereClause: the truthy search string contributes its condition and
two %-wrapped parameters first; then the loop over the filter entries
pushes, for each key bound to a non-empty array, one IN condition and that
array's values; the conditions are joined with AND after WHERE, or the
fragment is empty. -/
def buildWhereClause (search : String) (filters : List (String × JVal)) (isMysql : Bool) : WhereResult :=
  let start : List String × List JVal :=
    if search ≠ "" then
      ([searchCondition isMysql],
       [JVal.str ("%" ++ search ++ "%"), JVal.str ("%" ++ search ++ "%")])
    else ([], [])
  let acc :=
    filters.foldl
      (fun acc kv =>
        match kv.2 with
        | .arr values =>
          if 0 < values.length then
            (acc.1 ++ [filterCondition isMysql kv.1 values.length], acc.2 ++ values)
          else acc
        | _ => acc)
      start
  ⟨if 0 < acc.1.length then "WHERE " ++ String.intercalate " AND " acc.1 else "", acc.2⟩

/-- Specification reading of the claim, for the refinement comparison with
buildWhereClause: each filter key bound to a non-empty list yields exactly
one IN predicate, in key order; other entries yield none. -/
def specFilterConds (isMysql : Bool) (filters : List (String × JVal)) : List String :=
  filters.filterMap (fun kv =>
    match kv.2 with
    | .arr values =>
      if 0 < values.length then some (filterCondition isMysql kv.1 values.length) else none
    | _ => none)

/-- Specification reading of the parameter list: every value of every
non-empty list, concatenated in key order; other entries contribute no
parameter. -/
def specFilterParams (filters : List (String × JVal)) : List JVal :=
  (filters.map (fun kv =>
    match kv.2 with
    | .arr values => if 0 < values.length then values else []
    | _ => [])).flatten

/-- Specification reading of the whole clause: the search condition (for a
non-empty search) followed by the filter predicates, AND-joined after
WHERE, the two search parameters preceding the filter values. -/
def specWhereClause (search : String) (filters : List (String × JVal)) (isMysql : Bool) : WhereResult :=
  let conds := (if search ≠ "" then [searchCondition isMysql] else [])
      ++ specFilterConds isMysql filters
  let params := (if search ≠ "" then
        [JVal.str ("%" ++ search ++ "%"), JVal.str ("%" ++ search ++ "%")] else [])
      ++ specFilterParams filters
  ⟨if 0 < conds.length then "WHERE " ++ String.intercalate " AND " conds else "", params⟩

theorem whereClause_foldl (isMysql : Bool) (filters : List (String × JVal))
    (cs : List String) (ps : List JVal) :
    filters.foldl
      (fun acc kv =>
        match kv.2 with
        | .arr values =>
          if 0 < values.length then
            (acc.1 ++ [filterCondition isMysql kv.1 values.length], acc.2 ++ values)
          else acc
        | _ => acc)
      (cs, ps)
    = (cs ++ specFilterConds isMysql filters, ps ++ specFilterParams filters) := by
  induction filters generalizing cs ps with
  | nil => simp [specFilterConds, specFilterParams]
  | cons kv rest ih =>
    rcases kv with ⟨k, v⟩
    cases v with
    | arr values =>
      by_cases hlen : 0 < values.length
      · simp [specFilterConds, specFilterParams, hlen, ih, List.append_assoc]
      · simp [specFilterConds, specFilterParams, hlen, ih]
    | null => simp [specFilterConds, specFilterParams, ih]
    | bool b => simp [specFilterConds, specFilterParams, ih]
    | num n => simp [specFilterConds, specFilterParams, ih]
    | str s => simp [specFilterConds, specFilterParams, ih]
    | obj f => simp [specFilterConds, specFilterParams, ih]

/-- C8: buildWhereClause coincides with the specification reading, on both
engines: each key bound to a non-empty list contributes exactly one IN
predicate (receivedAt against the column, other keys through the
engine-specific JSON-path extraction), distinct keys are AND-joined, every
value of every list is bound as a positional parameter in key order, and
keys bound to a non-array or empty list contribute nothing. -/
theorem buildWhereClause_eq_spec (search : String) (filters : List (String × JVal))
    (isMysql : Bool) :
    buildWhereClause search filters isMysql = specWhereClause search filters isMysql := by
  unfold buildWhereClause specWhereClause
  rcases eq_or_ne search "" with hs | hs
  · subst hs
    simp [whereClause_foldl]
  · simp [hs, whereClause_foldl]

end Survey
